import Mathlib

/-!
Shallow embedding of the watchdog4git file-classification engine
(`watchdog/watchdog.go` and the `attributes` package), together with
theorems checking the natural-language specification against it.

External collaborators (the GitHub contents API, the YAML parser, the
git-lfs pointer decoder and the git-lfs glob matcher) are modelled as
fields of an `Env` record; every function that performs an API call also
returns the list of calls it made, so that frame properties ("no content
fetch happens") are provable.
-/

namespace Watchdog

/-- One entry of a directory listing returned by the GitHub contents API:
its path, its type string (`entry.GetType()`, e.g. `"file"`, `"symlink"`,
`"dir"`) and its byte size (`entry.GetSize()`). -/
structure RepositoryContent where
  path : String
  kind : String
  size : Int
  deriving DecidableEq, Repr

/-- The file-content object of the contents API; `getContent` models the
Go `fileContent.GetContent()` call, which may fail while decoding. -/
structure FileContentObj where
  getContent : Except String String

/-- Result of one `Repositories.GetContents` API call: either a transport
error, or a pair of an optional file content and an optional directory
listing (for a file path the listing is nil, for a directory the file
content is nil). -/
inductive ApiResult where
  | apiError (e : String)
  | ok (fileContent : Option FileContentObj) (dirContent : Option (List RepositoryContent))

/-- The error values the embedded code produces.  `getContentsUpperLimit`
and `lfsPointer` embed the two sentinel errors `errGetContentsUpperLimit`
and `errLFSPointer`; `wdMessage msg sha file` embeds a `watchdog.error`
value with its three arguments; the remaining constructors embed errors
coming from lower layers (transport failures, a nil content object, a
content-decode failure, a YAML parse failure). -/
inductive WDError where
  | getContentsUpperLimit
  | lfsPointer
  | wdMessage (msg sha file : String)
  | dirNoContent (path : String)
  | transport (e : String)
  | contentDecode (e : String)
  | yamlError (e : String)
  deriving DecidableEq, Repr

/-- Observable external calls: a file-content fetch, a directory listing,
and posting a commit comment (the reporter). -/
inductive Event where
  | fetchFile (ref path : String)
  | listDir (ref path : String)
  | reportComment (sha : String)
  deriving DecidableEq, Repr

/-- The git-lfs `filepathfilter.Filter` as used by this repository: it is
always built with `filepathfilter.New(patterns, nil)`, i.e. include
patterns only and no exclude patterns. -/
structure Filter where
  includePatterns : List String
  deriving DecidableEq, Repr

/-- `Filter.Allows` of git-lfs, specialised to a nil exclude list: with a
non-empty include list a path is allowed iff some include pattern matches
it; with an empty include list every path is allowed.  `glob` is the
library's pattern matcher, supplied by the environment. -/
def Filter.Allows (glob : String → String → Bool) (f : Filter) (filename : String) : Bool :=
  if f.includePatterns.isEmpty then true
  else f.includePatterns.any (fun p => glob p filename)

/-- A Go `*filepathfilter.Filter` value, which may be nil (`none`).  The
git-lfs library's `Allows` starts with `if filter == nil { return true }`,
so a nil filter allows every path. -/
def Filter.allowsOpt (glob : String → String → Bool) :
    Option Filter → String → Bool
  | none, _ => true
  | some f, filename => f.Allows glob filename

/-- Per-repository configuration, embedding the `watchdogConfig` struct. -/
structure watchdogConfig where
  HelpContact : String
  LFSSuggestionsEnabled : Bool
  LFSSizeThreshold : Int
  LFSSizeExemptions : String
  LFSSizeExemptionsThreshold : Int
  LFSExemptionsFilter : Option Filter
  deriving DecidableEq, Repr

/-- `defaultWatchDogConfig`: the built-in defaults used when
`.github/watchdog.yml` is missing or unparsable.  The exemptions filter is
the Go zero value, nil. -/
def defaultWatchDogConfig : watchdogConfig :=
  { HelpContact := "@mlbright or @larsxschneider"
    LFSSuggestionsEnabled := true
    LFSSizeThreshold := 512000
    LFSSizeExemptions := ""
    LFSSizeExemptionsThreshold := 20000000
    LFSExemptionsFilter := none }

/-- The environment: the external collaborators of the engine.
`getContents ref path` models one `Repositories.GetContents` call;
`yamlParse` models `yaml.UnmarshalStrict` into a fresh `watchdogConfig`;
`decodePointer` models `lfs.DecodePointer`; `glob` models the git-lfs
pattern matcher used inside `filepathfilter`; `watchdogDebug` models
`os.Getenv ("WATCHDOG_DEBUG")`. -/
structure Env where
  getContents : String → String → ApiResult
  yamlParse : String → Except String watchdogConfig
  decodePointer : String → Except String Unit
  glob : String → String → Bool
  watchdogDebug : String

/-- The fixed repository-relative path of the configuration file. -/
def configFile : String := ".github/watchdog.yml"

/-- Lower bound of the LFS pointer plausibility window (`lfsPtrBlobMinSize`). -/
def lfsPtrBlobMinSize : Int := 20

/-- Upper bound of the LFS pointer plausibility window (`lfsPtrBlobMaxSize`). -/
def lfsPtrBlobMaxSize : Int := 150

/-! ### String helpers

Kernel-computable embeddings of the Go string operations the engine
uses (`strings.HasPrefix` on one character, `strings.TrimSpace`,
`strings.Fields`, `strings.Contains`, splitting on a character). -/

/-- Whether a string starts with the character `c`. -/
def headIsChar (c : Char) (s : String) : Bool :=
  match s.toList with
  | [] => false
  | d :: _ => d = c

/-- Whether a string ends with the character `c`. -/
def lastIsChar (c : Char) (s : String) : Bool :=
  match s.toList.reverse with
  | [] => false
  | d :: _ => d = c

/-- Split a character list at every occurrence of `sep`. -/
def splitOnCharAux (sep : Char) : List Char → List Char → List (List Char)
  | [], cur => [cur.reverse]
  | c :: rest, cur =>
    if c = sep then cur.reverse :: splitOnCharAux sep rest []
    else splitOnCharAux sep rest (c :: cur)

/-- Split a character list at every occurrence of `sep`; both an empty
list and a trailing separator contribute an empty final piece. -/
def splitOnChar (sep : Char) (cs : List Char) : List (List Char) :=
  splitOnCharAux sep cs []

/-- Split a character list at every character satisfying `p`. -/
def splitOnPredAux (p : Char → Bool) : List Char → List Char → List (List Char)
  | [], cur => [cur.reverse]
  | c :: rest, cur =>
    if p c then cur.reverse :: splitOnPredAux p rest []
    else splitOnPredAux p rest (c :: cur)

/-- Split a character list at every character satisfying `p`. -/
def splitOnPred (p : Char → Bool) (cs : List Char) : List (List Char) :=
  splitOnPredAux p cs []

/-- `strings.TrimSpace` on a character list: drop whitespace from both
ends. -/
def trimChars (cs : List Char) : List Char :=
  ((cs.dropWhile Char.isWhitespace).reverse.dropWhile Char.isWhitespace).reverse

/-- Whether `needle` occurs as a contiguous sublist of the second list
(Go `strings.Contains`). -/
def listHasSub (needle : List Char) : List Char → Bool
  | [] => needle.isEmpty
  | c :: rest => needle.isPrefixOf (c :: rest) || listHasSub needle rest

/-! ### Go `path.Clean` and `filepath.Dir` (Unix) -/

/-- Element processing of Go `path.Clean`: drop empty and `.` elements,
let `..` pop a previous element (or survive when there is nothing to pop
and the path is not rooted). -/
def cleanElems (rooted : Bool) : List String → List String → List String
  | [], acc => acc.reverse
  | e :: rest, acc =>
    if e = "" || e = "." then cleanElems rooted rest acc
    else if e = ".." then
      match acc with
      | [] => if rooted then cleanElems rooted rest [] else cleanElems rooted rest [".."]
      | top :: accTail =>
        if top = ".." then cleanElems rooted rest (".." :: top :: accTail)
        else cleanElems rooted rest accTail
    else cleanElems rooted rest (e :: acc)

/-- Go `path.Clean` for Unix paths. -/
def pathClean (p : String) : String :=
  if p = "" then "."
  else
    let rooted := headIsChar '/' p
    let elems := (splitOnChar '/' p.toList).map String.mk
    let joined := String.intercalate "/" (cleanElems rooted elems [])
    if rooted then "/" ++ joined
    else if joined = "" then "." else joined

/-- Go `filepath.Dir` on Unix: everything up to and including the final
path separator, cleaned; `"."` when the path holds no separator. -/
def filepathDir (p : String) : String :=
  let cs := p.toList
  match cs.reverse.findIdx? (fun c => c = '/') with
  | none => pathClean ""
  | some k => pathClean (String.mk (cs.take (cs.length - k)))

/-! ### Content access -/

/-- `getFileContent`: fetch a file's content at a ref; a transport error,
a nil content object and a decode failure each yield an error. -/
def getFileContent (env : Env) (ref file : String) :
    Except WDError String × List Event :=
  match env.getContents ref file with
  | .apiError e => (.error (.transport e), [.fetchFile ref file])
  | .ok fileContent _ =>
    match fileContent with
    | none => (.error (.wdMessage "unexpected missing file content" ref file),
               [.fetchFile ref file])
    | some fc =>
      match fc.getContent with
      | .error e => (.error (.contentDecode e), [.fetchFile ref file])
      | .ok content => (.ok content, [.fetchFile ref file])

/-- `getDirContent`: list a directory at a ref.  When the listing holds at
least 1000 entries the entries are returned together with the sentinel
`errGetContentsUpperLimit` (the API truncates at 1000). -/
def getDirContent (env : Env) (ref path : String) :
    (List RepositoryContent × Option WDError) × List Event :=
  match env.getContents ref path with
  | .apiError e => (([], some (.transport e)), [.listDir ref path])
  | .ok _ dirContent =>
    match dirContent with
    | none => (([], some (.dirNoContent path)), [.listDir ref path])
    | some dc =>
      if dc.length ≥ 1000 then ((dc, some .getContentsUpperLimit), [.listDir ref path])
      else ((dc, none), [.listDir ref path])

/-- A single quote character, kept out of string literals. -/
def sq : String := String.singleton (Char.ofNat 39)

/-- The message of the `watchdog.error` produced when a directory entry
matches the requested path but is not of type `"file"`. -/
def wrongKindMsg (file kind : String) : String :=
  "name " ++ sq ++ file ++ sq ++ " matches, but object is a " ++ kind

/-- The scan loop of `getFileSize` over the directory entries, together
with the switch that follows it: `hitLimit` records whether
`getDirContent` returned `errGetContentsUpperLimit`. -/
def sizeScan (ref file : String) (hitLimit : Bool) :
    List RepositoryContent → Except WDError Int
  | [] =>
    if hitLimit then .error .getContentsUpperLimit
    else .error (.wdMessage "something is seriously wrong" ref file)
  | e :: rest =>
    if e.path = file then
      if e.kind = "file" then .ok e.size
      else .error (.wdMessage (wrongKindMsg file e.kind) ref file)
    else sizeScan ref file hitLimit rest

/-- `getFileSize`: resolve a file's byte size by listing its parent
directory.  A truncated listing (`errGetContentsUpperLimit`) is still
scanned; any other listing error is returned as-is. -/
def getFileSize (env : Env) (ref file : String) :
    Except WDError Int × List Event :=
  let r := getDirContent env ref (filepathDir file)
  match r.1.2 with
  | none => (sizeScan ref file false r.1.1, r.2)
  | some WDError.getContentsUpperLimit => (sizeScan ref file true r.1.1, r.2)
  | some e => (.error e, r.2)

/-- `validateLFSPointer`: a size outside `[20, 150]` fails immediately
with `errLFSPointer` and no fetch; inside the window the content is
fetched, fetch errors propagate as-is, and a decode failure yields
`errLFSPointer`. -/
def validateLFSPointer (env : Env) (ref file : String) (size : Int) :
    Option WDError × List Event :=
  if size > lfsPtrBlobMaxSize then (some WDError.lfsPointer, [])
  else if size < lfsPtrBlobMinSize then (some WDError.lfsPointer, [])
  else
    match getFileContent env ref file with
    | (.error e, ev) => (some e, ev)
    | (.ok content, ev) =>
      match env.decodePointer content with
      | .error _ => (some WDError.lfsPointer, ev)
      | .ok _ => (none, ev)

/-! ### The attributes package -/

/-- The `lineEndingSplitter` scanner of the attributes package: split on
LF, drop a trailing CR from each line; a final newline produces no empty
trailing token. -/
def splitLines (text : String) : List String :=
  let parts := splitOnChar '\n' text.toList
  let parts :=
    match parts.reverse with
    | [] :: rest => rest.reverse
    | _ => parts
  parts.map (fun l => String.mk (if l.reverse.headD ' ' = '\r' then l.dropLast else l))

/-- Go `strings.Fields`: the whitespace-separated fields of a string. -/
def stringsFields (s : String) : List String :=
  ((splitOnPred Char.isWhitespace s.toList).filter (fun t => !t.isEmpty)).map String.mk

/-- Whether a string holds `"filter=lfs"` as a substring (Go
`strings.Contains`). -/
def hasLfsMarker (line : String) : Bool :=
  listHasSub "filter=lfs".toList line.toList

/-- The pattern one line of `.gitattributes` contributes, if any: trim,
skip comment lines, and take the first field of a line holding the
`filter=lfs` marker.  (A line holding the marker always has at least one
field, since the marker itself is non-blank.) -/
def attrLinePattern (line : String) : Option String :=
  let t := String.mk (trimChars line.toList)
  if headIsChar '#' t then none
  else if hasLfsMarker t then
    match stringsFields t with
    | [] => none
    | f :: _ => some f
  else none

/-- `attributes.GetAttributePaths`: collect the patterns of all
`filter=lfs` lines; when no pattern is found, return nil rather than an
empty filter. -/
def GetAttributePaths (text : String) : Option Filter :=
  let paths := (splitLines text).filterMap attrLinePattern
  if paths.isEmpty then none else some { includePatterns := paths }

/-- `getAttributeFilter`: fetch `.gitattributes` at a ref and parse it; a
fetch error is returned with a nil filter. -/
def getAttributeFilter (env : Env) (ref : String) :
    Except WDError (Option Filter) × List Event :=
  match getFileContent env ref ".gitattributes" with
  | (.error e, ev) => (.error e, ev)
  | (.ok text, ev) => (.ok (GetAttributePaths text), ev)

/-! ### Configuration loading -/

/-- `getWatchDogConfig`: read and strictly parse `.github/watchdog.yml`;
on any failure return the defaults together with the error; on success
build the exemptions filter from the whitespace-separated exemption
patterns. -/
def getWatchDogConfig (env : Env) (ref : String) :
    (watchdogConfig × Option WDError) × List Event :=
  match getFileContent env ref configFile with
  | (.error e, ev) => ((defaultWatchDogConfig, some e), ev)
  | (.ok content, ev) =>
    match env.yamlParse content with
    | .error e => ((defaultWatchDogConfig, some (.yamlError e)), ev)
    | .ok config =>
      (({ config with
            LFSExemptionsFilter :=
              some { includePatterns := stringsFields config.LFSSizeExemptions } },
        none), ev)

/-! ### The classifier -/

/-- One commit of the push payload, with the fields `Check` reads. -/
structure Commit where
  ID : String
  Distinct : Bool
  Added : List String
  Modified : List String
  Removed : List String
  deriving DecidableEq, Repr

/-- The two ordered result lists accumulated for one commit. -/
structure CommitOutcome where
  lfsInvalidPointers : List String
  lfsCandidates : List String
  deriving DecidableEq, Repr

/-- The guard `lfsFilter != nil && lfsFilter.Allows(file)` of `Check`. -/
def lfsFilterMatch (glob : String → String → Bool) :
    Option Filter → String → Bool
  | none, _ => false
  | some f, file => f.Allows glob file

/-- The size-suggestion branch of `Check`: when suggestions are enabled,
an exempt file is compared against the exemptions threshold, any other
file against the base threshold, and exceeding the applicable threshold
appends the file to the candidates. -/
def suggestStep (env : Env) (config : watchdogConfig) (file : String)
    (size : Int) (acc : CommitOutcome) : CommitOutcome :=
  if config.LFSSuggestionsEnabled then
    if Filter.allowsOpt env.glob config.LFSExemptionsFilter file then
      if size > config.LFSSizeExemptionsThreshold then
        { acc with lfsCandidates := acc.lfsCandidates ++ [file] }
      else acc
    else
      if size > config.LFSSizeThreshold then
        { acc with lfsCandidates := acc.lfsCandidates ++ [file] }
      else acc
  else acc

/-- The pointer-validation branch of `Check`: `errLFSPointer` appends the
file to the invalid pointers; no error and any other error leave the
outcome unchanged. -/
def pointerStep (file : String) (res : Option WDError) (acc : CommitOutcome) :
    CommitOutcome :=
  match res with
  | none => acc
  | some WDError.lfsPointer =>
    { acc with lfsInvalidPointers := acc.lfsInvalidPointers ++ [file] }
  | some _ => acc

/-- The body of the per-file loop of `Check`: resolve the size (an error
skips the file), then branch into pointer validation for LFS-declared
files or the size suggestion for the rest. -/
def classifyFile (env : Env) (sha : String) (config : watchdogConfig)
    (lfsFilter : Option Filter) (file : String) (acc : CommitOutcome) :
    CommitOutcome × List Event :=
  match getFileSize env sha file with
  | (.error _, ev) => (acc, ev)
  | (.ok size, ev) =>
    if lfsFilterMatch env.glob lfsFilter file then
      let r := validateLFSPointer env sha file size
      (pointerStep file r.1 acc, ev ++ r.2)
    else
      (suggestStep env config file size acc, ev)

/-- The per-file loop of `Check` over the candidate files. -/
def checkFiles (env : Env) (sha : String) (config : watchdogConfig)
    (lfsFilter : Option Filter) :
    List String → CommitOutcome → CommitOutcome × List Event
  | [], acc => (acc, [])
  | file :: rest, acc =>
    let s := classifyFile env sha config lfsFilter file acc
    let r := checkFiles env sha config lfsFilter rest s.1
    (r.1, s.2 ++ r.2)

/-- The LFS attribute filter a commit's classification uses: nil when the
`.gitattributes` fetch failed (the error is only logged). -/
def commitLfsFilter (env : Env) (sha : String) : Option Filter :=
  match (getAttributeFilter env sha).1 with
  | .error _ => none
  | .ok f => f

/-- The goroutine body of `Check` for one commit: a non-distinct commit is
skipped outright; otherwise load the config (defaults on error), fetch
the attribute filter (nil on error), classify `Added ++ Modified`, and
invoke the reporter when either result list is non-empty (and the debug
variable is unset). -/
def checkCommit (env : Env) (c : Commit) : Option CommitOutcome × List Event :=
  if c.Distinct then
    let cfgR := getWatchDogConfig env c.ID
    let config := cfgR.1.1
    let afEv := (getAttributeFilter env c.ID).2
    let lfsFilter := commitLfsFilter env c.ID
    let files := c.Added ++ c.Modified
    let r := checkFiles env c.ID config lfsFilter files ⟨[], []⟩
    let report :=
      if (!r.1.lfsInvalidPointers.isEmpty || !r.1.lfsCandidates.isEmpty)
          && env.watchdogDebug == "" then
        [Event.reportComment c.ID]
      else []
    (some r.1, cfgR.2 ++ afEv ++ r.2 ++ report)
  else (none, [])

/-- `Check`: process every commit of the push. -/
def Check (env : Env) (commits : List Commit) :
    List (Option CommitOutcome × List Event) :=
  commits.map (checkCommit env)

/-- The per-file verdict, as a function of one file (no accumulator): used
to characterise the outcome lists of `checkFiles`. -/
inductive Verdict where
  | ok
  | invalidPointer
  | sizeSuggestion
  | lookupError
  deriving DecidableEq, Repr

/-- Whether the suggestion branch appends the file. -/
def suggestHit (env : Env) (config : watchdogConfig) (file : String)
    (size : Int) : Bool :=
  config.LFSSuggestionsEnabled &&
    (if Filter.allowsOpt env.glob config.LFSExemptionsFilter file then
      size > config.LFSSizeExemptionsThreshold
    else
      size > config.LFSSizeThreshold)

/-- The verdict of one file under a given config and attribute filter. -/
def fileVerdict (env : Env) (sha : String) (config : watchdogConfig)
    (lfsFilter : Option Filter) (file : String) : Verdict :=
  match (getFileSize env sha file).1 with
  | .error _ => .lookupError
  | .ok size =>
    if lfsFilterMatch env.glob lfsFilter file then
      match (validateLFSPointer env sha file size).1 with
      | some WDError.lfsPointer => .invalidPointer
      | _ => .ok
    else
      if suggestHit env config file size then .sizeSuggestion else .ok

/-! ### Example environments used by concrete instances and witnesses -/

/-- Modelled from the spec: the glob-style pattern matching of the
external git-lfs `filepathfilter` library (not part of this repository),
restricted to the two pattern shapes the examples use: a leading `*`
matches any path with the given suffix, and any other pattern matches
exactly itself. -/
def specGlob (pattern path : String) : Bool :=
  match pattern.toList with
  | '*' :: suffix => suffix.isSuffixOf path.toList
  | _ => pattern == path

/-- An environment whose contents API returns the given directory listing
for every path, whose YAML parsing and pointer decoding always fail, and
whose glob matcher is `specGlob`. -/
def mkListingEnv (entries : List RepositoryContent) : Env :=
  { getContents := fun _ _ => ApiResult.ok none (some entries)
    yamlParse := fun _ => Except.error "no config"
    decodePointer := fun _ => Except.error "not a pointer"
    glob := specGlob
    watchdogDebug := "" }

/-- The default configuration with an exemption filter matching `*.xml`,
as in the specification's exemption examples (base threshold 512000,
exemption threshold 20000000). -/
def xmlExemptConfig : watchdogConfig :=
  { defaultWatchDogConfig with
      LFSExemptionsFilter := some { includePatterns := ["*.xml"] } }

/-! ### Shared lemmas -/

theorem getDirContent_ok (env : Env) (ref path : String)
    (fc : Option FileContentObj) (entries : List RepositoryContent)
    (h : env.getContents ref path = ApiResult.ok fc (some entries)) :
    getDirContent env ref path =
      ((entries, if entries.length ≥ 1000 then some WDError.getContentsUpperLimit else none),
       [Event.listDir ref path]) := by
  unfold getDirContent
  rw [h]
  by_cases hl : entries.length ≥ 1000 <;> simp [hl]

theorem getFileSize_eq_scan (env : Env) (ref file : String)
    (fc : Option FileContentObj) (entries : List RepositoryContent)
    (h : env.getContents ref (filepathDir file) = ApiResult.ok fc (some entries)) :
    (getFileSize env ref file).1 =
      sizeScan ref file (entries.length ≥ 1000) entries := by
  unfold getFileSize
  rw [getDirContent_ok env ref (filepathDir file) fc entries h]
  by_cases hl : entries.length ≥ 1000 <;> simp [hl]

theorem sizeScan_char (ref file : String) (hitLimit : Bool)
    (entries : List RepositoryContent) :
    sizeScan ref file hitLimit entries =
      match entries.find? (fun x => x.path == file) with
      | some e =>
        if e.kind = "file" then Except.ok e.size
        else Except.error (WDError.wdMessage (wrongKindMsg file e.kind) ref file)
      | none =>
        if hitLimit then Except.error WDError.getContentsUpperLimit
        else Except.error (WDError.wdMessage "something is seriously wrong" ref file) := by
  induction entries with
  | nil => simp [sizeScan]
  | cons e rest ih =>
    by_cases hp : e.path = file
    · simp [sizeScan, hp, List.find?]
    · have hb : (e.path == file) = false := by simp [hp]
      simp [sizeScan, hp, List.find?, hb, ih]

theorem getFileContent_error_ne_lfsPointer (env : Env) (ref file : String)
    (e : WDError) (h : (getFileContent env ref file).1 = .error e) :
    e ≠ WDError.lfsPointer := by
  unfold getFileContent at h
  cases hc : env.getContents ref file with
  | apiError a =>
    rw [hc] at h
    simp at h
    simp [← h]
  | ok fc dc =>
    rw [hc] at h
    cases fc with
    | none =>
      simp at h
      simp [← h]
    | some f =>
      cases hg : f.getContent with
      | error a =>
        simp [hg] at h
        simp [← h]
      | ok c => simp [hg] at h

theorem getFileContent_events (env : Env) (ref file : String) :
    (getFileContent env ref file).2 = [Event.fetchFile ref file] := by
  cases hc : env.getContents ref file with
  | apiError a => simp [getFileContent, hc]
  | ok fc dc =>
    cases fc with
    | none => simp [getFileContent, hc]
    | some f =>
      cases hg : f.getContent with
      | error a => simp [getFileContent, hc, hg]
      | ok c => simp [getFileContent, hc, hg]

/-! ### Claim theorems -/

/-- C1: `getFileSize` implements the four-way case analysis of the
SizeResolver: over a directory listing for the file's parent directory,
a first matching entry of kind `"file"` yields its size (even when the
listing was truncated at the 1000-entry ceiling); a matching entry of any
other kind yields the wrong-entry-kind error and never a size; no match
with at least 1000 entries yields `errGetContentsUpperLimit`; no match
with fewer than 1000 entries yields the missing-expected-file error. -/
theorem getFileSize_case_analysis (env : Env) (ref file : String)
    (fc : Option FileContentObj) (entries : List RepositoryContent)
    (h : env.getContents ref (filepathDir file) = ApiResult.ok fc (some entries)) :
    (∀ e, entries.find? (fun x => x.path == file) = some e →
      (e.kind = "file" → (getFileSize env ref file).1 = .ok e.size) ∧
      (e.kind ≠ "file" →
        (getFileSize env ref file).1 =
          .error (.wdMessage (wrongKindMsg file e.kind) ref file))) ∧
    (entries.find? (fun x => x.path == file) = none →
      (entries.length ≥ 1000 →
        (getFileSize env ref file).1 = .error .getContentsUpperLimit) ∧
      (entries.length < 1000 →
        (getFileSize env ref file).1 =
          .error (.wdMessage "something is seriously wrong" ref file))) := by
  rw [getFileSize_eq_scan env ref file fc entries h, sizeScan_char]
  constructor
  · intro e hfind
    rw [hfind]
    constructor
    · intro hk
      simp [hk]
    · intro hk
      simp [hk]
  · intro hfind
    rw [hfind]
    constructor
    · intro hl
      simp [hl]
    · intro hl
      have : ¬ entries.length ≥ 1000 := by omega
      simp [this]

/-- Witness for C1: a concrete listing exercising the found-file case. -/
theorem getFileSize_case_analysis_witness :
    (getFileSize (mkListingEnv [⟨"dir/big.bin", "file", 600000⟩]) "main" "dir/big.bin").1 =
      .ok 600000 :=
  ((getFileSize_case_analysis (mkListingEnv [⟨"dir/big.bin", "file", 600000⟩])
      "main" "dir/big.bin" none [⟨"dir/big.bin", "file", 600000⟩] rfl).1
    ⟨"dir/big.bin", "file", 600000⟩ rfl).1 rfl

/-- C2: `validateLFSPointer` fails with `errLFSPointer` and no content
fetch for every size outside `[20, 150]`; for a size inside the window
the content is fetched, a decode failure yields `errLFSPointer`, a
successful decode yields no error, and a fetch error propagates as-is and
is distinct from `errLFSPointer`. -/
theorem validateLFSPointer_spec (env : Env) (ref file : String) (s : Int) :
    ((s < 20 ∨ s > 150) →
      validateLFSPointer env ref file s = (some WDError.lfsPointer, [])) ∧
    (20 ≤ s → s ≤ 150 →
      (Event.fetchFile ref file ∈ (validateLFSPointer env ref file s).2) ∧
      (∀ content, (getFileContent env ref file).1 = .ok content →
        (∀ pe, env.decodePointer content = .error pe →
          (validateLFSPointer env ref file s).1 = some WDError.lfsPointer) ∧
        (∀ u, env.decodePointer content = .ok u →
          (validateLFSPointer env ref file s).1 = none)) ∧
      (∀ e, (getFileContent env ref file).1 = .error e →
        (validateLFSPointer env ref file s).1 = some e ∧
          e ≠ WDError.lfsPointer)) := by
  have hmax : lfsPtrBlobMaxSize = 150 := rfl
  have hmin : lfsPtrBlobMinSize = 20 := rfl
  constructor
  · rintro (h | h)
    · have h150 : ¬ s > lfsPtrBlobMaxSize := by rw [hmax]; omega
      have h20 : s < lfsPtrBlobMinSize := by rw [hmin]; omega
      simp [validateLFSPointer, h150, h20]
    · have h150 : s > lfsPtrBlobMaxSize := by rw [hmax]; omega
      simp [validateLFSPointer, h150]
  · intro hlo hhi
    have h150 : ¬ s > lfsPtrBlobMaxSize := by rw [hmax]; omega
    have h20 : ¬ s < lfsPtrBlobMinSize := by rw [hmin]; omega
    rcases hgc : getFileContent env ref file with ⟨r, ev⟩
    have hev : ev = [Event.fetchFile ref file] := by
      have h2 := getFileContent_events env ref file
      rw [hgc] at h2
      exact h2
    refine ⟨?_, ?_, ?_⟩
    · cases r with
      | error e => simp [validateLFSPointer, h150, h20, hgc, hev]
      | ok content =>
        cases hd : env.decodePointer content with
        | error pe => simp [validateLFSPointer, h150, h20, hgc, hd, hev]
        | ok u => simp [validateLFSPointer, h150, h20, hgc, hd, hev]
    · intro content hcontent
      have hr : r = Except.ok content := hcontent
      subst hr
      constructor
      · intro pe hd
        simp [validateLFSPointer, h150, h20, hgc, hd]
      · intro u hd
        simp [validateLFSPointer, h150, h20, hgc, hd]
    · intro e herr
      have herr2 : (getFileContent env ref file).1 = Except.error e := by
        rw [hgc]; exact herr
      have hne := getFileContent_error_ne_lfsPointer env ref file e herr2
      have hr : r = Except.error e := herr
      subst hr
      exact ⟨by simp [validateLFSPointer, h150, h20, hgc], hne⟩

/-- Witness for C2: size 10 is rejected with no fetch, and size 100 with
an undecodable content yields `errLFSPointer` after a fetch. -/
theorem validateLFSPointer_spec_witness :
    validateLFSPointer (mkListingEnv []) "main" "a.bin" 10 =
        (some WDError.lfsPointer, []) ∧
      (validateLFSPointer (mkListingEnv []) "main" "a.bin" 100).1 =
        some (WDError.wdMessage "unexpected missing file content" "main" "a.bin") :=
  ⟨(validateLFSPointer_spec (mkListingEnv []) "main" "a.bin" 10).1 (Or.inl (by norm_num)),
   (((validateLFSPointer_spec (mkListingEnv []) "main" "a.bin" 100).2
      (by norm_num) (by norm_num)).2.2
     (WDError.wdMessage "unexpected missing file content" "main" "a.bin") rfl).1⟩

/-- C3: a non-LFS-declared file with suggestions enabled is appended to
the candidates iff its size strictly exceeds the exemptions threshold
when the exemption predicate matches it, and iff its size strictly
exceeds the base threshold otherwise; in particular, with the default
thresholds a non-exempt 600000-byte file is a candidate and a
500000-byte one is not, and with a `*.xml` exemption a 25MB `data.xml`
is a candidate while a 5MB one is not. -/
theorem suggestion_threshold_spec :
    (∀ (env : Env) (sha : String) (config : watchdogConfig)
        (lfsFilter : Option Filter) (file : String) (acc : CommitOutcome)
        (size : Int),
      lfsFilterMatch env.glob lfsFilter file = false →
      config.LFSSuggestionsEnabled = true →
      (getFileSize env sha file).1 = .ok size →
      (Filter.allowsOpt env.glob config.LFSExemptionsFilter file = true →
        (classifyFile env sha config lfsFilter file acc).1.lfsCandidates =
          (if size > config.LFSSizeExemptionsThreshold then
            acc.lfsCandidates ++ [file]
           else acc.lfsCandidates)) ∧
      (Filter.allowsOpt env.glob config.LFSExemptionsFilter file = false →
        (classifyFile env sha config lfsFilter file acc).1.lfsCandidates =
          (if size > config.LFSSizeThreshold then acc.lfsCandidates ++ [file]
           else acc.lfsCandidates))) ∧
    (classifyFile (mkListingEnv [⟨"big.bin", "file", 600000⟩]) "sha"
        xmlExemptConfig none "big.bin" ⟨[], []⟩).1.lfsCandidates = ["big.bin"] ∧
    (classifyFile (mkListingEnv [⟨"small.bin", "file", 500000⟩]) "sha"
        xmlExemptConfig none "small.bin" ⟨[], []⟩).1.lfsCandidates = [] ∧
    (classifyFile (mkListingEnv [⟨"data.xml", "file", 25000000⟩]) "sha"
        xmlExemptConfig none "data.xml" ⟨[], []⟩).1.lfsCandidates = ["data.xml"] ∧
    (classifyFile (mkListingEnv [⟨"data.xml", "file", 5000000⟩]) "sha"
        xmlExemptConfig none "data.xml" ⟨[], []⟩).1.lfsCandidates = [] := by
  refine ⟨?_, by rfl, by rfl, by rfl, by rfl⟩
  intro env sha config lfsFilter file acc size hmatch hsugg hsize
  rcases hgs : getFileSize env sha file with ⟨res, ev⟩
  have hr : res = Except.ok size := by
    have h2 : (getFileSize env sha file).1 = res := by rw [hgs]
    rw [← h2]; exact hsize
  subst hr
  constructor
  · intro hallow
    by_cases hT : size > config.LFSSizeExemptionsThreshold <;>
      simp [classifyFile, hgs, hmatch, suggestStep, hsugg, hallow, hT]
  · intro hallow
    by_cases hT : size > config.LFSSizeThreshold <;>
      simp [classifyFile, hgs, hmatch, suggestStep, hsugg, hallow, hT]

/-- Witness for C3: with the default thresholds and no exemption match, a
600000-byte file becomes a candidate. -/
theorem suggestion_threshold_spec_witness :
    (classifyFile (mkListingEnv [⟨"big.bin", "file", 600000⟩]) "sha"
        xmlExemptConfig none "big.bin" ⟨[], []⟩).1.lfsCandidates =
      (if (600000 : Int) > xmlExemptConfig.LFSSizeThreshold then
        ([] : List String) ++ ["big.bin"]
       else []) :=
  ((suggestion_threshold_spec.1 (mkListingEnv [⟨"big.bin", "file", 600000⟩])
      "sha" xmlExemptConfig none "big.bin" ⟨[], []⟩ 600000 rfl rfl rfl).2 rfl)

theorem suggestStep_inv (env : Env) (config : watchdogConfig) (file : String)
    (size : Int) (acc : CommitOutcome) :
    (suggestStep env config file size acc).lfsInvalidPointers =
      acc.lfsInvalidPointers := by
  unfold suggestStep
  repeat' split
  all_goals rfl

theorem classifyFile_none_inv (env : Env) (sha : String)
    (config : watchdogConfig) (file : String) (acc : CommitOutcome) :
    (classifyFile env sha config none file acc).1.lfsInvalidPointers =
      acc.lfsInvalidPointers := by
  rcases hgs : getFileSize env sha file with ⟨res, ev⟩
  cases res with
  | error e => simp [classifyFile, hgs]
  | ok size => simp [classifyFile, hgs, lfsFilterMatch, suggestStep_inv]

theorem checkFiles_none_inv (env : Env) (sha : String)
    (config : watchdogConfig) :
    ∀ (files : List String) (acc : CommitOutcome),
      (checkFiles env sha config none files acc).1.lfsInvalidPointers =
        acc.lfsInvalidPointers := by
  intro files
  induction files with
  | nil => intro acc; rfl
  | cons f rest ih =>
    intro acc
    show (checkFiles env sha config none rest
        (classifyFile env sha config none f acc).1).1.lfsInvalidPointers = _
    rw [ih]
    exact classifyFile_none_inv env sha config f acc

theorem classifyFile_nomatch_eq_suggest (env : Env) (sha : String)
    (config : watchdogConfig) (lfsFilter : Option Filter) (file : String)
    (acc : CommitOutcome) (size : Int)
    (hm : lfsFilterMatch env.glob lfsFilter file = false)
    (h : (getFileSize env sha file).1 = .ok size) :
    (classifyFile env sha config lfsFilter file acc).1 =
      suggestStep env config file size acc := by
  rcases hgs : getFileSize env sha file with ⟨res, ev⟩
  have hr : res = Except.ok size := by
    have h2 : (getFileSize env sha file).1 = res := by rw [hgs]
    rw [← h2]; exact h
  subst hr
  simp [classifyFile, hgs, hm]

theorem GetAttributePaths_none (text : String)
    (h : ∀ line ∈ splitLines text, attrLinePattern line = none) :
    GetAttributePaths text = none := by
  have hnil : (splitLines text).filterMap attrLinePattern = [] := by
    rw [List.filterMap_eq_nil_iff]
    exact h
  unfold GetAttributePaths
  simp [hnil]

/-- C4: when zero patterns are parsed from the attributes text (every
line contributes none), `GetAttributePaths` returns nil rather than an
always-false matcher; and with an absent attribute filter every file is
routed to the size-suggestion branch: the invalid-pointers list is never
extended, and a file whose size resolves is classified exactly by the
suggestion step. -/
theorem attribute_filter_absent_spec :
    (∀ text : String,
      (∀ line ∈ splitLines text, attrLinePattern line = none) →
      GetAttributePaths text = none) ∧
    (∀ (env : Env) (sha : String) (config : watchdogConfig) (file : String)
        (acc : CommitOutcome),
      (classifyFile env sha config none file acc).1.lfsInvalidPointers =
        acc.lfsInvalidPointers ∧
      (∀ size, (getFileSize env sha file).1 = .ok size →
        (classifyFile env sha config none file acc).1 =
          suggestStep env config file size acc)) ∧
    (∀ (env : Env) (sha : String) (config : watchdogConfig)
        (files : List String) (acc : CommitOutcome),
      (checkFiles env sha config none files acc).1.lfsInvalidPointers =
        acc.lfsInvalidPointers) := by
  refine ⟨?_, ?_, ?_⟩
  · intro text h
    exact GetAttributePaths_none text h
  · intro env sha config file acc
    exact ⟨classifyFile_none_inv env sha config file acc,
           fun size h =>
             classifyFile_nomatch_eq_suggest env sha config none file acc size rfl h⟩
  · intro env sha config files acc
    exact checkFiles_none_inv env sha config files acc

/-- Witness for C4: a text of comments and unmarked lines parses to an
absent filter. -/
theorem attribute_filter_absent_spec_witness :
    GetAttributePaths "# tracked files\nplain.txt -text\n" = none :=
  attribute_filter_absent_spec.1 "# tracked files\nplain.txt -text\n" (by decide)

theorem suggestStep_eq_hit (env : Env) (config : watchdogConfig)
    (file : String) (size : Int) (acc : CommitOutcome) :
    suggestStep env config file size acc =
      (if suggestHit env config file size then
        { acc with lfsCandidates := acc.lfsCandidates ++ [file] }
       else acc) := by
  unfold suggestStep suggestHit
  by_cases h1 : config.LFSSuggestionsEnabled <;>
    by_cases h2 : Filter.allowsOpt env.glob config.LFSExemptionsFilter file <;>
      simp [h1, h2]

theorem pointerStep_ne (file : String) (e : WDError) (acc : CommitOutcome)
    (hne : e ≠ WDError.lfsPointer) :
    pointerStep file (some e) acc = acc := by
  cases e <;> first | rfl | exact absurd rfl hne

theorem classifyFile_outcome (env : Env) (sha : String)
    (config : watchdogConfig) (lfsFilter : Option Filter) (file : String)
    (acc : CommitOutcome) :
    (classifyFile env sha config lfsFilter file acc).1 =
      { lfsInvalidPointers := acc.lfsInvalidPointers ++
          (if fileVerdict env sha config lfsFilter file == Verdict.invalidPointer
           then [file] else [])
        lfsCandidates := acc.lfsCandidates ++
          (if fileVerdict env sha config lfsFilter file == Verdict.sizeSuggestion
           then [file] else []) } := by
  rcases hgs : getFileSize env sha file with ⟨res, ev⟩
  cases res with
  | error e => simp [classifyFile, fileVerdict, hgs]
  | ok size =>
    by_cases hm : lfsFilterMatch env.glob lfsFilter file
    · rcases hv : validateLFSPointer env sha file size with ⟨vres, vev⟩
      cases vres with
      | none => simp [classifyFile, fileVerdict, hgs, hm, hv, pointerStep]
      | some e =>
        cases e <;> simp [classifyFile, fileVerdict, hgs, hm, hv, pointerStep]
    · rw [classifyFile_nomatch_eq_suggest env sha config lfsFilter file acc size
          (by simp [hm]) (by rw [hgs])]
      rw [suggestStep_eq_hit]
      by_cases hh : suggestHit env config file size <;>
        simp [fileVerdict, hgs, hm, hh]

theorem checkFiles_char (env : Env) (sha : String) (config : watchdogConfig)
    (lfsFilter : Option Filter) :
    ∀ (files : List String) (acc : CommitOutcome),
      (checkFiles env sha config lfsFilter files acc).1 =
        { lfsInvalidPointers := acc.lfsInvalidPointers ++
            files.filter (fun f =>
              fileVerdict env sha config lfsFilter f == Verdict.invalidPointer)
          lfsCandidates := acc.lfsCandidates ++
            files.filter (fun f =>
              fileVerdict env sha config lfsFilter f == Verdict.sizeSuggestion) } := by
  intro files
  induction files with
  | nil => intro acc; simp [checkFiles]
  | cons f rest ih =>
    intro acc
    show (checkFiles env sha config lfsFilter rest
        (classifyFile env sha config lfsFilter f acc).1).1 = _
    rw [ih, classifyFile_outcome]
    by_cases h1 : fileVerdict env sha config lfsFilter f == Verdict.invalidPointer <;>
      by_cases h2 : fileVerdict env sha config lfsFilter f == Verdict.sizeSuggestion <;>
        simp [List.filter_cons, h1, h2]

theorem checkCommit_distinct (env : Env) (c : Commit) (hd : c.Distinct = true) :
    (checkCommit env c).1 =
      some (checkFiles env c.ID ((getWatchDogConfig env c.ID).1.1)
        (commitLfsFilter env c.ID) (c.Added ++ c.Modified) ⟨[], []⟩).1 := by
  simp [checkCommit, hd]

/-- C5: for a distinct commit the processed file list is exactly the
added paths followed by the modified paths (deleted paths never enter,
and changing them changes nothing); both outcome lists are order- and
multiplicity-preserving filters of that list, so a path occurring twice
in the merged list occurs once per violating occurrence in the relevant
output list. -/
theorem commit_outcome_order_spec (env : Env) (c : Commit)
    (hd : c.Distinct = true) :
    ((checkCommit env c).1 =
      some { lfsInvalidPointers := (c.Added ++ c.Modified).filter
               (fun f => fileVerdict env c.ID ((getWatchDogConfig env c.ID).1.1)
                   (commitLfsFilter env c.ID) f == Verdict.invalidPointer)
             lfsCandidates := (c.Added ++ c.Modified).filter
               (fun f => fileVerdict env c.ID ((getWatchDogConfig env c.ID).1.1)
                   (commitLfsFilter env c.ID) f == Verdict.sizeSuggestion) }) ∧
    (∀ r : List String, checkCommit env { c with Removed := r } = checkCommit env c) := by
  constructor
  · rw [checkCommit_distinct env c hd, checkFiles_char]
    simp
  · intro r; rfl

/-- Witness for C5: a path added and modified in the same commit appears
twice among the size candidates. -/
theorem commit_outcome_order_witness :
    (checkCommit (mkListingEnv [⟨"a.bin", "file", 25000000⟩])
        ⟨"sha", true, ["a.bin"], ["a.bin"], []⟩).1 =
      some ⟨[], ["a.bin", "a.bin"]⟩ := by
  rw [(commit_outcome_order_spec (mkListingEnv [⟨"a.bin", "file", 25000000⟩])
        ⟨"sha", true, ["a.bin"], ["a.bin"], []⟩ rfl).1]
  rfl

/-- C6: a file whose size resolution fails contributes to neither outcome
list, and a pointer-validation error other than `errLFSPointer` likewise
skips only that file; in both cases classification of the remaining files
of the commit continues unchanged. -/
theorem error_skip_spec (env : Env) (sha : String) (config : watchdogConfig)
    (lfsFilter : Option Filter) (file : String) (rest : List String)
    (acc : CommitOutcome) :
    (∀ e, (getFileSize env sha file).1 = .error e →
      (classifyFile env sha config lfsFilter file acc).1 = acc ∧
      (checkFiles env sha config lfsFilter (file :: rest) acc).1 =
        (checkFiles env sha config lfsFilter rest acc).1) ∧
    (∀ size e, (getFileSize env sha file).1 = .ok size →
      lfsFilterMatch env.glob lfsFilter file = true →
      (validateLFSPointer env sha file size).1 = some e →
      e ≠ WDError.lfsPointer →
      (classifyFile env sha config lfsFilter file acc).1 = acc ∧
      (checkFiles env sha config lfsFilter (file :: rest) acc).1 =
        (checkFiles env sha config lfsFilter rest acc).1) := by
  constructor
  · intro e h
    rcases hgs : getFileSize env sha file with ⟨res, ev⟩
    have hr : res = Except.error e := by
      have h2 : (getFileSize env sha file).1 = res := by rw [hgs]
      rw [← h2]; exact h
    subst hr
    have hcl : (classifyFile env sha config lfsFilter file acc).1 = acc := by
      simp [classifyFile, hgs]
    refine ⟨hcl, ?_⟩
    show (checkFiles env sha config lfsFilter rest
        (classifyFile env sha config lfsFilter file acc).1).1 = _
    rw [hcl]
  · intro size e hok hm hv hne
    rcases hgs : getFileSize env sha file with ⟨res, ev⟩
    have hr : res = Except.ok size := by
      have h2 : (getFileSize env sha file).1 = res := by rw [hgs]
      rw [← h2]; exact hok
    subst hr
    rcases hval : validateLFSPointer env sha file size with ⟨vres, vev⟩
    have hvr : vres = some e := by
      have h2 : (validateLFSPointer env sha file size).1 = vres := by rw [hval]
      rw [← h2]; exact hv
    subst hvr
    have hcl : (classifyFile env sha config lfsFilter file acc).1 = acc := by
      simp [classifyFile, hgs, hm, hval, pointerStep_ne file e acc hne]
    refine ⟨hcl, ?_⟩
    show (checkFiles env sha config lfsFilter rest
        (classifyFile env sha config lfsFilter file acc).1).1 = _
    rw [hcl]

/-- Witness for C6: a file absent from its (short) directory listing is
skipped and the outcome is unchanged. -/
theorem error_skip_spec_witness :
    (classifyFile (mkListingEnv []) "sha" defaultWatchDogConfig none
        "missing.bin" ⟨[], []⟩).1 = ⟨[], []⟩ :=
  ((error_skip_spec (mkListingEnv []) "sha" defaultWatchDogConfig none
      "missing.bin" [] ⟨[], []⟩).1
    (WDError.wdMessage "something is seriously wrong" "sha" "missing.bin") rfl).1

/-- C7: a commit whose `Distinct` flag is false produces no classification
work and no reporter call (its event trace is empty), and processing
continues with the remaining commits of the push. -/
theorem nondistinct_skip_spec (env : Env) (c : Commit) (rest : List Commit)
    (h : c.Distinct = false) :
    checkCommit env c = (none, []) ∧
    Check env (c :: rest) = (none, []) :: Check env rest := by
  have h1 : checkCommit env c = (none, []) := by simp [checkCommit, h]
  exact ⟨h1, by simp [Check, h1]⟩

/-- Witness for C7: a concrete non-distinct commit is skipped outright. -/
theorem nondistinct_skip_spec_witness :
    checkCommit (mkListingEnv []) ⟨"sha", false, ["a.bin"], [], []⟩ = (none, []) :=
  (nondistinct_skip_spec (mkListingEnv []) ⟨"sha", false, ["a.bin"], [], []⟩ [] rfl).1

/-- C8: a failed load or strict parse of `.github/watchdog.yml` returns
the built-in defaults (help contact set, suggestions enabled, base
threshold 512000, exemptions threshold 20000000) together with the
non-nil error; a successful parse returns the parsed configuration, with
its exemptions filter built from the exemption patterns, and no error. -/
theorem config_fallback_spec (env : Env) (ref : String) :
    (∀ e, (getFileContent env ref configFile).1 = .error e →
      (getWatchDogConfig env ref).1 = (defaultWatchDogConfig, some e)) ∧
    (∀ content pe, (getFileContent env ref configFile).1 = .ok content →
      env.yamlParse content = .error pe →
      (getWatchDogConfig env ref).1 =
        (defaultWatchDogConfig, some (.yamlError pe))) ∧
    (∀ content cfg, (getFileContent env ref configFile).1 = .ok content →
      env.yamlParse content = .ok cfg →
      (getWatchDogConfig env ref).1 =
        ({ cfg with
            LFSExemptionsFilter :=
              some (Filter.mk (stringsFields cfg.LFSSizeExemptions)) },
         none)) ∧
    (defaultWatchDogConfig.HelpContact = "@mlbright or @larsxschneider" ∧
     defaultWatchDogConfig.LFSSuggestionsEnabled = true ∧
     defaultWatchDogConfig.LFSSizeThreshold = 512000 ∧
     defaultWatchDogConfig.LFSSizeExemptionsThreshold = 20000000) := by
  rcases hgc : getFileContent env ref configFile with ⟨r, ev⟩
  refine ⟨?_, ?_, ?_, rfl, rfl, rfl, rfl⟩
  · intro e h
    have hr : r = Except.error e := h
    subst hr
    simp [getWatchDogConfig, hgc]
  · intro content pe h hp
    have hr : r = Except.ok content := h
    subst hr
    simp [getWatchDogConfig, hgc, hp]
  · intro content cfg h hp
    have hr : r = Except.ok content := h
    subst hr
    simp [getWatchDogConfig, hgc, hp]

/-- Witness for C8: a repository without the config file gets the
defaults plus the surfaced load error. -/
theorem config_fallback_spec_witness :
    (getWatchDogConfig (mkListingEnv []) "main").1 =
      (defaultWatchDogConfig,
       some (.wdMessage "unexpected missing file content" "main" configFile)) :=
  (config_fallback_spec (mkListingEnv []) "main").1
    (.wdMessage "unexpected missing file content" "main" configFile) rfl

/-- C9: whenever config loading falls back (the returned error is
non-nil), the returned configuration is the default one, whose
exemptions filter is nil; `Filter.allowsOpt` on a nil filter allows every
path, so under the fallback configuration every non-LFS-declared file is
compared against the 20000000-byte exemptions threshold, and a resolved
size in (512000, 20000000] is never suggested for LFS. -/
theorem fallback_exemption_gap_spec :
    (∀ (env : Env) (ref : String) (e : WDError),
      (getWatchDogConfig env ref).1.2 = some e →
      (getWatchDogConfig env ref).1.1 = defaultWatchDogConfig ∧
      (getWatchDogConfig env ref).1.1.LFSExemptionsFilter = none) ∧
    (∀ (glob : String → String → Bool) (file : String),
      Filter.allowsOpt glob none file = true) ∧
    (∀ (env : Env) (sha file : String) (lfsFilter : Option Filter)
        (acc : CommitOutcome) (size : Int),
      lfsFilterMatch env.glob lfsFilter file = false →
      (getFileSize env sha file).1 = .ok size →
      (suggestStep env defaultWatchDogConfig file size acc =
        (if size > 20000000 then
          { acc with lfsCandidates := acc.lfsCandidates ++ [file] }
         else acc)) ∧
      (512000 < size → size ≤ 20000000 →
        (classifyFile env sha defaultWatchDogConfig lfsFilter file acc).1 = acc)) := by
  refine ⟨?_, fun glob file => rfl, ?_⟩
  · intro env ref e h
    rcases hgc : getFileContent env ref configFile with ⟨r, ev⟩
    cases r with
    | error a =>
      have hcfg : (getWatchDogConfig env ref).1.1 = defaultWatchDogConfig := by
        simp [getWatchDogConfig, hgc]
      exact ⟨hcfg, by rw [hcfg]; rfl⟩
    | ok content =>
      cases hp : env.yamlParse content with
      | error pe =>
        have hcfg : (getWatchDogConfig env ref).1.1 = defaultWatchDogConfig := by
          simp [getWatchDogConfig, hgc, hp]
        exact ⟨hcfg, by rw [hcfg]; rfl⟩
      | ok cfg =>
        exfalso
        have hnone : (getWatchDogConfig env ref).1.2 = none := by
          simp [getWatchDogConfig, hgc, hp]
        rw [hnone] at h
        exact Option.noConfusion h
  · intro env sha file lfsFilter acc size hm hsize
    have hsug : suggestStep env defaultWatchDogConfig file size acc =
        (if size > 20000000 then
          { acc with lfsCandidates := acc.lfsCandidates ++ [file] }
         else acc) := by
      unfold suggestStep
      rfl
    refine ⟨hsug, ?_⟩
    intro hlo hhi
    rw [classifyFile_nomatch_eq_suggest env sha defaultWatchDogConfig lfsFilter
        file acc size hm hsize, hsug]
    have hno : ¬ size > 20000000 := by omega
    simp [hno]

/-- Witness for C9: under the fallback defaults a 600000-byte file (above
the base threshold, below the exemptions threshold) is not suggested. -/
theorem fallback_exemption_gap_witness :
    (classifyFile (mkListingEnv [⟨"a.bin", "file", 600000⟩]) "sha"
        defaultWatchDogConfig none "a.bin" ⟨[], []⟩).1 = ⟨[], []⟩ :=
  ((fallback_exemption_gap_spec.2.2 (mkListingEnv [⟨"a.bin", "file", 600000⟩])
      "sha" "a.bin" none ⟨[], []⟩ 600000 rfl rfl).2
    (by norm_num) (by norm_num))

/-- C10: when the `.gitattributes` fetch fails, `getAttributeFilter`
returns the error with a nil filter, the commit is classified with a nil
attribute filter (so pointer validation never runs and the
invalid-pointers list stays empty, every file taking the suggestion
branch), and the filter is the same as for any repository whose
attributes text declares no LFS paths. -/
theorem attr_fetch_failure_spec (env : Env) (sha : String) (e : WDError)
    (h : (getFileContent env sha ".gitattributes").1 = .error e) :
    (getAttributeFilter env sha).1 = .error e ∧
    commitLfsFilter env sha = none ∧
    (∀ c : Commit, c.ID = sha → c.Distinct = true →
      ∃ out, (checkCommit env c).1 = some out ∧ out.lfsInvalidPointers = []) ∧
    (∀ (env2 : Env) (text : String),
      (getFileContent env2 sha ".gitattributes").1 = .ok text →
      (∀ line ∈ splitLines text, attrLinePattern line = none) →
      commitLfsFilter env sha = commitLfsFilter env2 sha) := by
  have h1 : (getAttributeFilter env sha).1 = .error e := by
    rcases hgc : getFileContent env sha ".gitattributes" with ⟨r, ev⟩
    have hr : r = Except.error e := by
      have h2 : (getFileContent env sha ".gitattributes").1 = r := by rw [hgc]
      rw [← h2]; exact h
    subst hr
    simp [getAttributeFilter, hgc]
  have h2 : commitLfsFilter env sha = none := by
    simp [commitLfsFilter, h1]
  refine ⟨h1, h2, ?_, ?_⟩
  · intro c hid hd
    subst hid
    refine ⟨(checkFiles env c.ID ((getWatchDogConfig env c.ID).1.1)
        (commitLfsFilter env c.ID) (c.Added ++ c.Modified) ⟨[], []⟩).1,
      checkCommit_distinct env c hd, ?_⟩
    rw [h2]
    exact checkFiles_none_inv env c.ID _ _ _
  · intro env2 text hok hnone
    have h3 : commitLfsFilter env2 sha = none := by
      rcases hgc2 : getFileContent env2 sha ".gitattributes" with ⟨r2, ev2⟩
      have hr2 : r2 = Except.ok text := by
        have hx : (getFileContent env2 sha ".gitattributes").1 = r2 := by rw [hgc2]
        rw [← hx]; exact hok
      subst hr2
      simp [commitLfsFilter, getAttributeFilter, hgc2,
        GetAttributePaths_none text hnone]
    rw [h2, h3]

/-- Witness for C10: with a failing `.gitattributes` fetch the commit's
attribute filter is nil. -/
theorem attr_fetch_failure_spec_witness :
    commitLfsFilter (mkListingEnv []) "sha" = none :=
  (attr_fetch_failure_spec (mkListingEnv []) "sha"
    (.wdMessage "unexpected missing file content" "sha" ".gitattributes") rfl).2.1

end Watchdog
